import Mathlib

/-!
Shallow embedding of the agent core of the sidebar extension:
the tool-catalog aggregation and turn loop of `generateAIResponse`
(src/App.tsx), the multi-server connection manager and stateless HTTP
transport (src/lib/mcp.ts), and the skills matcher
(src/lib/skills-matcher.ts).  External collaborators (fetch, JSON.parse,
the LLM endpoint, the MCP SDK client) are modelled as oracle parameters;
everything else is translated from the source.
-/

namespace Sidebar

/-- ASCII character-class test for the JS regex class `[a-zA-Z0-9_-]`
(App.tsx line 497: `uniqueName.replace(/[^a-zA-Z0-9_-]/g, '_')`). -/
def isValidNameChar (c : Char) : Bool :=
  c.isLower || c.isUpper || c.isDigit || c == '_' || c == '-'

/-- `uniqueName.replace(/[^a-zA-Z0-9_-]/g, '_')` — every character outside
the class becomes an underscore. -/
def sanitizeName (s : String) : String :=
  String.mk (s.toList.map fun c => if isValidNameChar c then c else '_')

/-- One tool as returned by `mcpService.listTools()` (mcp.ts lines 343-361):
the server tool plus `serverName` and `sourceUrl` tags. `serverName` is the
configured display name; `none` or the empty string are both falsy in the
JS test `if (serverName)`. -/
structure McpTool where
  name : String
  description : String
  inputSchemaPresent : Bool
  serverName : Option String
  sourceUrl : Option String
deriving DecidableEq, Repr

/-- JS truthiness of an optional string (`if (serverName)`). -/
def strTruthy : Option String → Bool
  | some s => s != ""
  | none => false

/-- App.tsx lines 486-494: candidate unique name, `{serverName}_{name}` when
the server has a (truthy) display name, else the original name. -/
def uniqueNameOf (t : McpTool) : String :=
  match t.serverName with
  | some sn => if sn = "" then t.name else sn ++ "_" ++ t.name
  | none => t.name

/-- App.tsx line 497: the externally-visible (offered) tool name. -/
def validNameOf (t : McpTool) : String :=
  sanitizeName (uniqueNameOf t)

/-- Value stored in `toolNameMap` (App.tsx line 499). -/
structure RouteInfo where
  originalName : String
  serverUrl : Option String
deriving DecidableEq, Repr

/-- App.tsx line 499: the reverse routing map, built by one `Map.set` per
tool in listing order.  Represented as the insertion sequence. -/
def buildToolNameMap (ts : List McpTool) : List (String × RouteInfo) :=
  ts.map fun t => (validNameOf t, { originalName := t.name, serverUrl := t.sourceUrl })

/-- JS `Map.get`: the value of the LAST `set` for the key wins. -/
def mapGet (m : List (String × RouteInfo)) (k : String) : Option RouteInfo :=
  (m.reverse.find? fun p => p.1 = k).map (·.2)

/-- The list of function names offered to the model in one aggregation pass
(App.tsx line 504: `name: validName` for each mapped tool, duplicates kept). -/
def offeredNames (ts : List McpTool) : List String :=
  ts.map validNameOf

/-- App.tsx lines 751-753: resolving a streamed tool-call name through the
reverse map; a missing entry falls back to the raw name with no target URL. -/
def dispatchTarget (m : List (String × RouteInfo)) (tcName : String) : String × Option String :=
  match mapGet m tcName with
  | some mi => (mi.originalName, mi.serverUrl)
  | none => (tcName, none)

/-- A name matches the model-facing contract `^[a-zA-Z0-9_-]+$`:
nonempty and every character in the class. -/
def matchesNamePattern (s : String) : Bool :=
  !s.data.isEmpty && s.data.all isValidNameChar

/-! ### Generic JS string helpers -/

/-- The common JS `\s` whitespace characters (ASCII ones plus NBSP). -/
def isJsSpace (c : Char) : Bool :=
  c == ' ' || c == '\t' || c == '\n' || c == '\r' ||
  c == '\x0b' || c == '\x0c' || c == ' '

/-- Substring test on character lists (`hay.includes(needle)` in JS). -/
def containsList (needle : List Char) : List Char → Bool
  | [] => needle.isEmpty
  | c :: cs => needle.isPrefixOf (c :: cs) || containsList needle cs

/-- JS `hay.includes(sub)`. -/
def containsStr (hay sub : String) : Bool :=
  containsList sub.toList hay.toList

/-- A string that is falsy or trims to nothing (`!text || !text.trim()`). -/
def isBlank (s : String) : Bool :=
  s.toList.all isJsSpace

/-- JS `s.trim()`. -/
def jsTrim (s : String) : String :=
  String.mk (((s.toList.dropWhile isJsSpace).reverse.dropWhile isJsSpace).reverse)

/-! ### Skills matcher (src/lib/skills-matcher.ts)

`matchSkills` selects explicit-command match first, then LLM matching
(capped at `MAX_SKILLS = 3`), falling back to keyword matching when the
surrounding code throws.  The network call inside `llmMatch` is an oracle;
its reply post-processing (lines 126-136) is translated. -/

/-- Skill summary (`SkillMetadata`: name + description). -/
structure SkillMetadata where
  name : String
  description : String
deriving DecidableEq, Repr

/-- Character class of the explicit-command capture group `([a-z0-9-]+)`
under the `/i` flag: ASCII letters, digits and hyphen. -/
def isSkillNameChar (c : Char) : Bool :=
  c.isLower || c.isUpper || c.isDigit || c == '-'

/-- Case-insensitive literal-prefix stripping: `stripCI pat cs` returns the
remainder of `cs` after the pattern when every pattern character matches
case-insensitively, else `none`. -/
def stripCI : List Char → List Char → Option (List Char)
  | [], cs => some cs
  | _ :: _, [] => none
  | p :: ps, c :: cs => if p.toLower = c.toLower then stripCI ps cs else none

/-- One pattern of `detectExplicitCommand` (skills-matcher.ts lines 50-53):
`/^\/use-skill\s+([a-z0-9-]+)/i` — the literal command, at least one
whitespace, then the maximal run of name characters, lowercased. -/
def detectOne (cmd : String) (msg : String) : Option String :=
  match stripCI cmd.toList msg.toList with
  | none => none
  | some rest =>
    let ws := rest.takeWhile isJsSpace
    let rest2 := rest.dropWhile isJsSpace
    if ws.isEmpty then none
    else
      let nm := rest2.takeWhile isSkillNameChar
      if nm.isEmpty then none
      else some (String.mk (nm.map Char.toLower))

/-- skills-matcher.ts lines 48-62: try `/use-skill` first, then `/skill`. -/
def detectExplicitCommand (msg : String) : Option String :=
  match detectOne "/use-skill" msg with
  | some nm => some nm
  | none => detectOne "/skill" msg

/-- JS `s.split(/\s+/)`: segments between maximal whitespace runs, with the
JS quirks (leading/trailing empty segment when the string starts/ends with
whitespace; `""` splits to `[""]`). -/
def jsSplitWsList : List Char → List (List Char)
  | [] => [[]]
  | c :: cs =>
    let r := jsSplitWsList cs
    if isJsSpace c then
      match cs with
      | c2 :: _ => if isJsSpace c2 then r else [] :: r
      | [] => [] :: r
    else
      match r with
      | w :: ws => (c :: w) :: ws
      | [] => [[c]]

/-- JS `s.split(/\s+/)` on strings. -/
def jsSplitWs (s : String) : List String :=
  (jsSplitWsList s.toList).map String.mk

/-- JS ASCII `toLowerCase` on strings. -/
def jsToLower (s : String) : String :=
  String.mk (s.toList.map Char.toLower)

/-- `skill.name.replace` of every hyphen with a space. -/
def dashesToSpaces (s : String) : String :=
  String.mk (s.toList.map fun c => if c = '-' then ' ' else c)

/-- Keyword score of one skill (skills-matcher.ts lines 174-193): 10 when
the de-hyphenated skill name occurs in the lowercased message, plus 1 per
description word longer than 3 characters occurring in the message. -/
def kwScore (messageLower : String) (sk : SkillMetadata) : Nat :=
  (if containsStr messageLower (dashesToSpaces sk.name) then 10 else 0) +
    ((jsSplitWs (jsToLower sk.description)).countP fun w =>
      3 < w.length && containsStr messageLower w)

/-- Stable descending insertion by score, matching the stable JS
`sort((a, b) => b.score - a.score)`: under the right fold of
`sortDescByScore` the inserted element is the earliest in original order,
so it goes before any equal-score element already placed. -/
def insertDesc (x : String × Nat) : List (String × Nat) → List (String × Nat)
  | [] => [x]
  | y :: ys => if y.2 ≤ x.2 then x :: y :: ys else y :: insertDesc x ys

/-- Stable descending sort by score. -/
def sortDescByScore (l : List (String × Nat)) : List (String × Nat) :=
  l.foldr insertDesc []

/-- `MAX_SKILLS` (skills-matcher.ts line 14). -/
def MAX_SKILLS : Nat := 3

/-- `keywordMatch` (skills-matcher.ts lines 167-200): score every skill,
keep positive scores, sort descending, take the top `MAX_SKILLS` names. -/
def keywordMatch (message : String) (skills : List SkillMetadata) : List String :=
  let messageLower := jsToLower message
  let matched := skills.filterMap fun sk =>
    let score := kwScore messageLower sk
    if 0 < score then some (sk.name, score) else none
  ((sortDescByScore matched).take MAX_SKILLS).map (·.1)

/-- Outcome of the external LLM call inside `llmMatch`:
`reply c` models a completed HTTP call whose first choice content is `c`
(`none` when the field is missing); `innerFail` models a throw inside
`llmMatch`'s own try (caught there, returning `[]`); `outerFail` models a
throw escaping `llmMatch` (e.g. from `getSettings`), caught by
`matchSkills` which then falls back to keyword matching. -/
inductive LlmOutcome where
  | reply (content : Option String)
  | innerFail
  | outerFail
deriving DecidableEq, Repr

/-- Reply post-processing of `llmMatch` (skills-matcher.ts lines 126-136):
`content?.trim().toLowerCase() || 'none'`, then `none` means no skills,
else split on commas, trim, and keep only names of known skills. -/
def llmParse (content : Option String) (skills : List SkillMetadata) : List String :=
  let reply :=
    match content with
    | some c => if jsToLower (jsTrim c) = "" then "none" else jsToLower (jsTrim c)
    | none => "none"
  if reply = "none" then []
  else
    ((reply.splitOn ",").map jsTrim).filter fun nm =>
      skills.any fun sk => sk.name = nm

/-- The non-explicit path of `matchSkills` (skills-matcher.ts lines
33-41): the LLM match capped at `MAX_SKILLS`, `[]` when `llmMatch` caught
its own error, keyword fallback when the throw escaped `llmMatch`. -/
def autoMatch (userMessage : String) (enabledSkills : List SkillMetadata)
    (llm : LlmOutcome) : List String :=
  match llm with
  | .reply c => (llmParse c enabledSkills).take MAX_SKILLS
  | .innerFail => (([] : List String)).take MAX_SKILLS
  | .outerFail => keywordMatch userMessage enabledSkills

/-- `matchSkills` (skills-matcher.ts lines 19-42): empty skill set short
circuits; an explicit command naming an enabled skill wins; otherwise the
automatic path runs. -/
def matchSkills (userMessage : String) (enabledSkills : List SkillMetadata)
    (llm : LlmOutcome) : List String :=
  if enabledSkills.isEmpty then []
  else
    match detectExplicitCommand userMessage with
    | some ex =>
      if enabledSkills.any fun sk => sk.name = ex then [ex]
      else autoMatch userMessage enabledSkills llm
    | none => autoMatch userMessage enabledSkills llm

/-! ### Turn loop (src/App.tsx, `generateAIResponse` lines 512-789)

The model stream of each turn is an input (list of decoder chunks);
`JSON.parse` and `mcpService.callTool` are oracles.  User cancellation is
the monotone flag `stopRequestedRef.current`, read at explicit check
points; each read is given a fresh tick of a global clock so the flag may
flip between any two checks.  Message ids (`Date.now()`-based) are
environment nondeterminism and are omitted. -/

/-- One streaming-decoder event (llm.ts chunk vocabulary consumed at
App.tsx lines 654-697). -/
inductive Chunk where
  | content (s : String)
  | reasoning (s : String)
  | toolStart (id nm : String)
  | toolDelta (args : String)
deriving DecidableEq, Repr

/-- One accumulated tool call (`{id, name, arguments}`). -/
structure ToolCallAcc where
  id : String
  name : String
  arguments : String
deriving DecidableEq, Repr

/-- Accumulation state of one turn's stream (App.tsx lines 643-646). -/
structure StreamState where
  fullContent : String
  fullReasoning : String
  completed : List ToolCallAcc
  current : Option ToolCallAcc
deriving DecidableEq, Repr

/-- Initial accumulation state of a turn. -/
def initStream : StreamState :=
  { fullContent := "", fullReasoning := "", completed := [], current := none }

/-- Processing one chunk (App.tsx lines 657-697): content and reasoning
are appended in emission order; a tool-call start closes the previous open
call; an argument delta extends the most recently started call. -/
def stepChunk (st : StreamState) (c : Chunk) : StreamState :=
  match c with
  | .content s => { st with fullContent := st.fullContent ++ s }
  | .reasoning s => { st with fullReasoning := st.fullReasoning ++ s }
  | .toolStart i nm =>
    { st with
      completed := st.completed ++ (match st.current with
        | some tc => [tc]
        | none => [])
      current := some { id := i, name := nm, arguments := "" } }
  | .toolDelta a =>
    match st.current with
    | some tc => { st with current := some { tc with arguments := tc.arguments ++ a } }
    | none => st

/-- Uninterrupted accumulation over a chunk list. -/
def consume (chunks : List Chunk) (st : StreamState) : StreamState :=
  chunks.foldl stepChunk st

/-- The per-chunk consume loop with the `stopRequestedRef` check at each
chunk boundary (App.tsx line 655).  `stop` is the flag read at clock tick
`clk`; processing chunk by chunk, each check advances the clock.  Returns
the accumulated state and the clock after the loop. -/
def consumeStream (stop : Nat → Bool) : List Chunk → Nat → StreamState → StreamState × Nat
  | [], clk, st => (st, clk)
  | c :: cs, clk, st =>
    if stop clk then (st, clk + 1)
    else consumeStream stop cs (clk + 1) (stepChunk st c)

/-- App.tsx lines 713-717: after the stream (or its cancellation) the open
tool call, if any, is pushed onto the completed list. -/
def finalToolCalls (st : StreamState) : List ToolCallAcc :=
  st.completed ++ (match st.current with
    | some tc => [tc]
    | none => [])

/-- Message roles. -/
inductive Role where
  | system | user | assistant | tool
deriving DecidableEq, Repr

/-- One history entry as committed by the loop (ids omitted). -/
structure Msg where
  role : Role
  content : String
  reasoningContent : Option String := none
  toolCalls : List ToolCallAcc := []
  toolCallId : Option String := none
  toolName : Option String := none
deriving DecidableEq, Repr

/-- The finalized assistant message of one turn (App.tsx lines 720-732):
accumulated text, reasoning only when truthy, tool calls only when any. -/
def mkAssistantMsg (st : StreamState) : Msg :=
  { role := .assistant
    content := st.fullContent
    reasoningContent := if st.fullReasoning = "" then none else some st.fullReasoning
    toolCalls := finalToolCalls st }

/-- One part of a tool-call result (`{content: [{type, text?}]}`);
`text` is read only when `type` is `text`, else the code substitutes `""`. -/
structure ToolResultPart where
  type : String
  text : String
deriving DecidableEq, Repr

/-- Result of `mcpService.callTool` as consumed at App.tsx lines 773-777. -/
structure ToolCallOutcome where
  content : List ToolResultPart
  isError : Bool
deriving DecidableEq, Repr

/-- External oracles of the tool-execution step: the outcome of
`JSON.parse` on an argument string (errors carry `err.message`) and the
outcome of `mcpService.callTool` keyed by `(originalName, targetUrl)`. -/
structure ToolEnv where
  jsonParse : String → Except String Unit
  callTool : String → Option String → Except String ToolCallOutcome

/-- The argument string actually parsed: `tc.arguments || '{}'`. -/
def argsStrOf (tc : ToolCallAcc) : String :=
  if tc.arguments = "" then "\x7b\x7d" else tc.arguments

/-- The result string written into one tool message (App.tsx lines
769-780): the routed call's flattened text parts, `Error: `-prefixed when
the server flags an error; any throw (malformed JSON or a failed call)
becomes `Error executing tool: {message}`. -/
def execToolResult (env : ToolEnv) (m : List (String × RouteInfo)) (tc : ToolCallAcc) : String :=
  let target := dispatchTarget m tc.name
  match env.jsonParse (argsStrOf tc) with
  | .error e => "Error executing tool: " ++ e
  | .ok _ =>
    match env.callTool target.1 target.2 with
    | .error e => "Error executing tool: " ++ e
    | .ok result =>
      let rs := String.intercalate "\n"
        (result.content.map fun c => if c.type = "text" then c.text else "")
      if result.isError then "Error: " ++ rs else rs

/-- The tool message for one call as it ends up in history (placeholder
appended at App.tsx lines 755-762, content written at line 782). -/
def mkToolMsg (env : ToolEnv) (m : List (String × RouteInfo)) (tc : ToolCallAcc) : Msg :=
  { role := .tool
    content := execToolResult env m tc
    toolCallId := some tc.id
    toolName := some tc.name }

/-- The sequential tool-execution loop (App.tsx lines 748-788) with the
stop check before each call (line 749).  Returns the extended history and
the clock after the loop. -/
def execToolsLoop (env : ToolEnv) (m : List (String × RouteInfo)) (stop : Nat → Bool) :
    List ToolCallAcc → Nat → List Msg → List Msg × Nat
  | [], clk, hist => (hist, clk)
  | tc :: rest, clk, hist =>
    if stop clk then (hist, clk + 1)
    else execToolsLoop env m stop rest (clk + 1) (hist ++ [mkToolMsg env m tc])

/-- Which break ended the turn loop: the `while` ceiling, the explicit
stop check, or an assistant turn with zero tool calls. -/
inductive ExitReason where
  | maxTurnsReached
  | stopBreak
  | noToolCalls
deriving DecidableEq, Repr

/-- Final observation of one turn-loop execution: committed history, the
number of model calls opened, and which break ended the loop. -/
structure LoopResult where
  history : List Msg
  modelCalls : Nat
  reason : ExitReason
deriving Repr

/-- The `while (turnCount < effectiveMaxTurns)` loop (App.tsx lines
516-789), with `fuel = effectiveMaxTurns - turnCount` so the recursion is
structural.  `streams t` is the decoder chunk list of the model call of
turn `t` (1-based); per iteration: stop check (line 521), stream the model
response, commit the assistant message (line 735), break on zero tool
calls (line 745), else execute tools and continue. -/
def runTurnsAux (streams : Nat → List Chunk) (env : ToolEnv)
    (m : List (String × RouteInfo)) (stop : Nat → Bool) :
    Nat → Nat → Nat → List Msg → Nat → LoopResult
  | 0, _, _, hist, calls => ⟨hist, calls, .maxTurnsReached⟩
  | fuel + 1, t0, clk, hist, calls =>
    let t := t0 + 1
    if stop clk then ⟨hist, calls, .stopBreak⟩
    else
      let sres := consumeStream stop (streams t) (clk + 1) initStream
      let st := sres.1
      let hist1 := hist ++ [mkAssistantMsg st]
      let calls1 := calls + 1
      let tcs := finalToolCalls st
      if tcs.isEmpty then ⟨hist1, calls1, .noToolCalls⟩
      else
        let tres := execToolsLoop env m stop tcs sres.2 hist1
        runTurnsAux streams env m stop fuel t tres.2 tres.1 calls1

/-- One full turn-loop execution from an initial history. -/
def runTurns (maxTurns : Nat) (streams : Nat → List Chunk) (env : ToolEnv)
    (m : List (String × RouteInfo)) (stop : Nat → Bool) (hist0 : List Msg) : LoopResult :=
  runTurnsAux streams env m stop maxTurns 0 0 hist0 0

/-- `settings.maxTurns || 25` (App.tsx line 514): unset or zero (both
falsy) default to 25.  The stored default is 25 (storage.ts line 179). -/
def effectiveMaxTurns (maxTurns : Option Nat) : Nat :=
  match maxTurns with
  | some n => if n = 0 then 25 else n
  | none => 25

/-! ### Connection manager (src/lib/mcp.ts, `McpService`)

Connection state is the `clientMap` keyed by URL.  Promises are abstract
identity tokens (a `Nat`); `fetch` during the probe and the SDK handshake
are oracles.  The async connect body is translated with explicit exception
propagation (`Except`), so "the promise never rejects" is the statement
that the translated function always returns `.ok`. -/

/-- Connection status (`ConnectedClient.status`, plus the synthetic
`disconnected` returned by `getConnectionStatus` for untracked URLs). -/
inductive ConnStatus where
  | disconnected | connecting | connected | error
deriving DecidableEq, Repr

/-- One `clientMap` entry (mcp.ts lines 5-12); the client/transport
objects themselves carry no state the claims depend on. -/
structure ClientEntry where
  status : ConnStatus
  connectPromise : Option Nat
  serverName : Option String := none
  errorMessage : Option String := none
deriving DecidableEq, Repr

/-- The `clientMap` as an insertion-ordered association list with unique
keys (JS `Map`). -/
abbrev SvcState := List (String × ClientEntry)

/-- `clientMap.get(url)`. -/
def svcGet (s : SvcState) (url : String) : Option ClientEntry :=
  (List.find? (fun p => p.1 = url) s).map (·.2)

/-- `clientMap.delete(url)`. -/
def svcDelete (s : SvcState) (url : String) : SvcState :=
  List.filter (fun p => p.1 ≠ url) s

/-- `clientMap.set(url, e)`: replace in place when present, else append. -/
def svcSet (s : SvcState) (url : String) (e : ClientEntry) : SvcState :=
  if (List.find? (fun p => p.1 = url) s).isSome then
    List.map (fun p => if p.1 = url then (url, e) else p) s
  else s ++ [(url, e)]

/-- `getConnectionStatus` (mcp.ts lines 121-123). -/
def getConnectionStatus (s : SvcState) (url : String) : ConnStatus :=
  match svcGet s url with
  | some e => e.status
  | none => .disconnected

/-- `getConnectionError` (mcp.ts lines 125-127). -/
def getConnectionError (s : SvcState) (url : String) : Option String :=
  match svcGet s url with
  | some e => e.errorMessage
  | none => none

/-- What `connect(url)` returns to its caller: nothing (already
connected), the stored in-flight promise, or a freshly created promise. -/
inductive ConnectCallResult where
  | noop
  | existingPromise (pid : Nat)
  | newPromise (pid : Nat)
deriving DecidableEq, Repr

/-- The synchronous part of `connect(url)` (mcp.ts lines 129-141 and
277-280): connected entries are left alone; a connecting entry with a
stored promise is returned as is; otherwise the stale entry is
disconnected and a fresh connecting entry with a new promise is set.
`fresh` is the identity of the newly created promise. -/
def connectCall (s : SvcState) (url : String) (fresh : Nat) : SvcState × ConnectCallResult :=
  match svcGet s url with
  | some e =>
    if e.status = .connected then (s, .noop)
    else if e.status = .connecting then
      match e.connectPromise with
      | some pid => (s, .existingPromise pid)
      | none =>
        (svcSet (svcDelete s url) url
          { status := .connecting, connectPromise := some fresh }, .newPromise fresh)
    else
      (svcSet (svcDelete s url) url
        { status := .connecting, connectPromise := some fresh }, .newPromise fresh)
  | none =>
    (svcSet s url { status := .connecting, connectPromise := some fresh }, .newPromise fresh)

/-- Outcome of the diagnostic probe `fetch` (mcp.ts lines 158-162):
a completed response, an `AbortError` from the 5 s timeout, or a
network-level rejection with its message. -/
inductive FetchOutcome where
  | success (ok : Bool) (status : Nat) (statusText : String)
      (contentType : Option String) (body : Option String)
  | abortError
  | netError (msg : String)
deriving DecidableEq, Repr

/-- `ct?.includes(sub)` with optional chaining. -/
def ctIncludes (ct : Option String) (sub : String) : Bool :=
  match ct with
  | some s => containsStr s sub
  | none => false

/-- `${ct || 'none'}` in the invalid-content-type message. -/
def ctOrNone (ct : Option String) : String :=
  match ct with
  | some s => if s = "" then "none" else s
  | none => "none"

/-- The non-ok probe error message (mcp.ts lines 182-193): status line,
a hint for 404, and a 200-character body preview unless it reads as HTML
or the body could not be read. -/
def probeStatusMsg (status : Nat) (statusText : String) (body : Option String) : String :=
  let base := "Server returned status " ++ toString status ++ " " ++ statusText
  let base :=
    if status = 404 then
      base ++ "\n\nHINT: The endpoint was not found. Common SSE paths include \"/sse\", \"/api/sse\", or \"/v1/sse\". Check your server documentation."
    else base
  match body with
  | some text =>
    if text ≠ "" && !(jsTrim text).startsWith "<!DOCTYPE" && !(jsTrim text).startsWith "<html" then
      base ++ " Details: " ++ String.mk (text.toList.take 200)
    else base
  | none => base

/-- The probe logic (mcp.ts lines 152-203), returning the transport
choice (`true` = HTTP POST, `false` = SSE) or the error that escapes the
inner catch.  An `AbortError` is swallowed and SSE is attempted. -/
def probeDecide (f : FetchOutcome) : Except String Bool :=
  match f with
  | .success ok status statusText ct body =>
    if ok then
      if ctIncludes ct "text/event-stream" then .ok false
      else if ctIncludes ct "application/json" then .ok true
      else .error ("Invalid content-type. Expected \"text/event-stream\" or \"application/json\", received \"" ++ ctOrNone ct ++ "\". Check if the URL is correct.")
    else .error (probeStatusMsg status statusText body)
  | .abortError => .ok false
  | .netError msg => .error msg

/-- The inner try of the connect promise body (mcp.ts lines 151-262):
probe, then `client.connect` on the chosen transport (`handshake` is the
SDK handshake oracle, keyed by the transport choice). -/
def connectBody (f : FetchOutcome) (handshake : Bool → Except String Unit) : Except String Bool := do
  let useHttp ← probeDecide f
  let _ ← handshake useHttp
  pure useHttp

/-- Applying the promise body's outcome to the map entry: success marks
the entry connected and clears the promise (mcp.ts lines 255-261); the
catch records `error` plus the message and resolves normally (lines
264-274, "Do not throw here"). -/
def resolveBody (s : SvcState) (url : String) (r : Except String Bool) : SvcState :=
  match svcGet s url with
  | none => s
  | some e =>
    match r with
    | .ok _ => svcSet s url { e with status := .connected, connectPromise := none }
    | .error msg =>
      svcSet s url { e with status := .error, errorMessage := some msg, connectPromise := none }

/-- `connect(url)` end to end, with explicit exception propagation: the
`Except` layer is the promise rejection channel.  When a fresh attempt is
started the body runs and its outcome is folded into the map; the body's
catch is exhaustive, so the result is `.ok` by the code's own structure. -/
def mcpConnect (s : SvcState) (url : String) (fresh : Nat) (f : FetchOutcome)
    (handshake : Bool → Except String Unit) : Except String (SvcState × ConnectCallResult) :=
  let call := connectCall s url fresh
  match call.2 with
  | .newPromise pid => .ok (resolveBody call.1 url (connectBody f handshake), .newPromise pid)
  | r => .ok (call.1, r)

/-! ### Stateless HTTP transport (src/lib/mcp.ts, `SimpleHttpTransport.send`) -/

/-- The fields of the `fetch` response that `send` reads. -/
structure HttpResp where
  ok : Bool
  status : Nat
  contentLength : Option String
  contentType : Option String
  body : String
deriving DecidableEq, Repr

deriving instance DecidableEq for Except

/-- Everything observable about one `send` call: the payloads passed to
`onmessage` (identified by their source text), the error passed to
`onerror` (invoked before the rejection), and whether the promise
resolved or rejected. -/
structure SendOutcome where
  delivered : List String
  errorCb : Option String
  result : Except String Unit
deriving DecidableEq, Repr

/-- The data lines delivered on the SSE path (mcp.ts lines 81-95): lines
beginning `data: ` whose remainder parses as JSON; parse failures are
logged and skipped. -/
def sseDeliver (jp : String → Bool) (text : String) : List String :=
  (text.splitOn "\n").filterMap fun line =>
    if line.startsWith "data: " && jp (line.drop 6) then some (line.drop 6) else none

/-- The `Unsupported response format` message (mcp.ts line 100) with the
observed content-type and a 100-character body preview. -/
def unsupportedMsg (r : HttpResp) : String :=
  "Unsupported response format. Content-type: " ++
    (match r.contentType with
      | some s => s
      | none => "null") ++
    ". Body preview: " ++ String.mk (r.body.toList.take 100)

/-- `SimpleHttpTransport.send` (mcp.ts lines 37-107) as a function of the
response and a `JSON.parse`-success oracle `jp`: non-ok status throws;
`content-length: 0`/204 and blank bodies resolve silently; a JSON body is
delivered as one message; otherwise a body with `data:` framing (or an
event-stream content-type) has its data lines delivered when any parses;
anything else throws the diagnostic error.  Every throw reaches the catch,
which invokes `onerror` and rethrows. -/
def sendDecode (jp : String → Bool) (r : HttpResp) : SendOutcome :=
  if !r.ok then
    let msg := "HTTP error " ++ toString r.status ++ ": " ++ r.body
    ⟨[], some msg, .error msg⟩
  else if r.contentLength = some "0" || r.status = 204 then ⟨[], none, .ok ()⟩
  else if isBlank r.body then ⟨[], none, .ok ()⟩
  else if jp r.body then ⟨[r.body], none, .ok ()⟩
  else if containsStr r.body "data:" || ctIncludes r.contentType "text/event-stream" then
    let delivered := sseDeliver jp r.body
    if delivered.isEmpty then
      let msg := unsupportedMsg r
      ⟨[], some msg, .error msg⟩
    else ⟨delivered, none, .ok ()⟩
  else
    let msg := unsupportedMsg r
    ⟨[], some msg, .error msg⟩

/-- A server display name usable for collision-free prefixing: truthy and
made only of valid name characters other than the underscore separator. -/
def serverTagOk (t : McpTool) : Bool :=
  match t.serverName with
  | some sn => sn != "" && sn.data.all fun c => isValidNameChar c && c != '_'
  | none => false

/-- A lowercase skill-name character as written by skill authors:
ASCII lowercase letter, digit or hyphen (the subset of the explicit
command's capture class fixed by lowercasing). -/
def isLowerSkillChar (c : Char) : Bool :=
  c.isLower || c.isDigit || c == '-'

/-! ## Theorems -/

theorem str_ext (a b : String) (h : a.data = b.data) : a = b :=
  congrArg String.mk h

theorem sanitize_data (s : String) :
    (sanitizeName s).data = s.data.map fun c => if isValidNameChar c then c else '_' := rfl

theorem sanitize_all_valid (s : String) : (sanitizeName s).data.all isValidNameChar = true := by
  rw [sanitize_data, List.all_map]
  refine List.all_eq_true.2 fun c _ => ?_
  simp only [Function.comp]
  by_cases h : isValidNameChar c = true
  · simpa [if_pos h] using h
  · rw [if_neg h]; decide

theorem sanitize_length (s : String) : (sanitizeName s).data.length = s.data.length := by
  rw [sanitize_data, List.length_map]

theorem sanitize_id_of_valid (s : String) (h : s.data.all isValidNameChar = true) :
    sanitizeName s = s := by
  apply str_ext
  rw [sanitize_data]
  conv_rhs => rw [← List.map_id s.data]
  refine List.map_congr_left fun c hc => ?_
  simp [List.all_eq_true.1 h c hc]

theorem sep_inj (a b c d : List Char)
    (ha : ∀ x ∈ a, x ≠ '_') (hb : ∀ x ∈ b, x ≠ '_')
    (h : a ++ '_' :: c = b ++ '_' :: d) : a = b ∧ c = d := by
  induction a generalizing b with
  | nil =>
    cases b with
    | nil => simpa using h
    | cons y ys =>
      exfalso
      simp only [List.nil_append, List.cons_append, List.cons.injEq] at h
      exact hb y (by simp) h.1.symm
  | cons x xs ih =>
    cases b with
    | nil =>
      exfalso
      simp only [List.cons_append, List.nil_append, List.cons.injEq] at h
      exact ha x (by simp) h.1
    | cons y ys =>
      simp only [List.cons_append, List.cons.injEq] at h
      obtain ⟨h1, h2⟩ := h
      have hr := ih ys (fun z hz => ha z (List.mem_cons_of_mem _ hz))
        (fun z hz => hb z (List.mem_cons_of_mem _ hz)) h2
      exact ⟨by rw [h1, hr.1], hr.2⟩

theorem serverTagOk_elim (t : McpTool) (sn : String)
    (hsn : t.serverName = some sn) (hok : serverTagOk t = true) :
    sn ≠ "" ∧ sn.data.all isValidNameChar = true ∧ ∀ x ∈ sn.data, x ≠ '_' := by
  simp only [serverTagOk, hsn, Bool.and_eq_true, bne_iff_ne, ne_eq] at hok
  obtain ⟨h1, h2⟩ := hok
  refine ⟨h1, ?_, ?_⟩
  · refine List.all_eq_true.2 fun c hc => ?_
    have := List.all_eq_true.1 h2 c hc
    rw [Bool.and_eq_true] at this
    exact this.1
  · intro x hx
    have := List.all_eq_true.1 h2 x hx
    rw [Bool.and_eq_true] at this
    simpa using this.2

theorem validName_eq_of_tagOk (t : McpTool) (sn : String)
    (hsn : t.serverName = some sn) (hok : serverTagOk t = true)
    (hnm : t.name.data.all isValidNameChar = true) :
    (validNameOf t).data = sn.data ++ '_' :: t.name.data := by
  obtain ⟨hne, hsnall, _⟩ := serverTagOk_elim t sn hsn hok
  have hall : (sn ++ "_" ++ t.name).data.all isValidNameChar = true := by
    simp only [String.data_append, List.all_append, Bool.and_eq_true]
    exact ⟨⟨hsnall, by decide⟩, hnm⟩
  have hu : uniqueNameOf t = sn ++ "_" ++ t.name := by
    simp [uniqueNameOf, hsn, hne]
  rw [validNameOf, hu, sanitize_id_of_valid _ hall]
  simp [String.data_append]

/-- Colliding catalog input: two connected servers that share the display
name `Files` and both expose a tool originally named `search` (also the
C2 counterexample input). -/
def c1pair : List McpTool :=
  [ { name := "search", description := "d", inputSchemaPresent := true,
      serverName := some "Files", sourceUrl := some "http://a/sse" },
    { name := "search", description := "d", inputSchemaPresent := true,
      serverName := some "Files", sourceUrl := some "http://b/sse" } ]

/-- C1 counterexample input: the `Files`/`Files` collision plus a tool
with an empty original name on a server without a display name. -/
def c1bad : List McpTool :=
  [ { name := "search", description := "d", inputSchemaPresent := true,
      serverName := some "Files", sourceUrl := some "http://a/sse" },
    { name := "search", description := "d", inputSchemaPresent := true,
      serverName := some "Files", sourceUrl := some "http://b/sse" },
    { name := "", description := "d", inputSchemaPresent := true,
      serverName := none, sourceUrl := none } ]

/-- C1, counterexample: the claim fails at `c1bad`, and each conjunct
fails on its own there — the pass offers `Files_search` twice (two
different servers sharing one display name and one original tool name),
and offers the empty string (which does not match `^[a-zA-Z0-9_-]+$`)
for the empty-named tool. -/
theorem c1_counterexample :
    ¬ ((∀ n ∈ offeredNames c1bad, matchesNamePattern n = true) ∧
        (offeredNames c1bad).Pairwise (· ≠ ·)) ∧
      ¬ (∀ n ∈ offeredNames c1bad, matchesNamePattern n = true) ∧
      ¬ (offeredNames c1bad).Pairwise (· ≠ ·) := by decide

theorem str_of_data_nil (s : String) (h : s.data = []) : s = "" := by
  cases s
  simp_all

theorem uniqueName_ne_nil (t : McpTool)
    (h : strTruthy t.serverName = true ∨ t.name ≠ "") :
    (uniqueNameOf t).data ≠ [] := by
  cases hsn : t.serverName with
  | none =>
    rcases h with h | h
    · simp [strTruthy, hsn] at h
    · simp only [uniqueNameOf, hsn]
      intro hx
      exact h (str_of_data_nil _ hx)
  | some sn =>
    by_cases hsne : sn = ""
    · subst hsne
      rcases h with h | h
      · simp [strTruthy, hsn] at h
      · simp only [uniqueNameOf, hsn, if_pos rfl]
        intro hx
        exact h (str_of_data_nil _ hx)
    · simp only [uniqueNameOf, hsn, if_neg hsne, String.data_append]
      simp

/-- C1 (amended): every externally-visible tool name offered to the model
consists only of characters in `[a-zA-Z0-9_-]`, unconditionally; it is
moreover nonempty — matching `^[a-zA-Z0-9_-]+$` — for every tool whose
server has a truthy display name or whose original name is nonempty (only
an empty-named tool on a display-nameless server is offered as the empty
string); and the offered names of one aggregation pass are pairwise
distinct provided every tool's server display name is truthy,
underscore-free and inside the name character class, every original tool
name is inside the class, and no two tools agree on both display name and
original name — in particular two servers with distinct such display
names may expose the identical original name. -/
theorem c1_offered_names_valid_and_distinct (ts : List McpTool) :
    (∀ n ∈ offeredNames ts, n.data.all isValidNameChar = true) ∧
      (∀ t ∈ ts, strTruthy t.serverName = true ∨ t.name ≠ "" →
        matchesNamePattern (validNameOf t) = true) ∧
      ((∀ t ∈ ts, serverTagOk t = true) →
        (∀ t ∈ ts, t.name.data.all isValidNameChar = true) →
        (ts.map fun t => (t.serverName, t.name)).Pairwise (· ≠ ·) →
        (offeredNames ts).Pairwise (· ≠ ·)) := by
  refine ⟨?_, ?_, ?_⟩
  · intro n hn
    obtain ⟨t, _, rfl⟩ := List.mem_map.1 hn
    exact sanitize_all_valid (uniqueNameOf t)
  · intro t _ h
    have hu := uniqueName_ne_nil t h
    have hvne : (validNameOf t).data ≠ [] := by
      intro hx
      have hl := sanitize_length (uniqueNameOf t)
      simp only [validNameOf] at hx
      rw [hx] at hl
      exact hu (List.length_eq_zero.1 hl.symm)
    have hemp : (validNameOf t).data.isEmpty = false := by
      cases hd : (validNameOf t).data with
      | nil => exact absurd hd hvne
      | cons a l => rfl
    simp only [matchesNamePattern, Bool.and_eq_true, hemp]
    exact ⟨rfl, sanitize_all_valid (uniqueNameOf t)⟩
  · intro htag hnm hpairs
    have hsome : ∀ t ∈ ts, ∃ sn, t.serverName = some sn := by
      intro t ht
      have := htag t ht
      cases hx : t.serverName with
      | some sn => exact ⟨sn, rfl⟩
      | none => simp [serverTagOk, hx] at this
    rw [offeredNames, List.pairwise_map]
    rw [List.pairwise_map] at hpairs
    refine hpairs.imp_of_mem ?_
    intro a b ha hb hne heq
    obtain ⟨sa, hsa⟩ := hsome a ha
    obtain ⟨sb, hsb⟩ := hsome b hb
    have hda := validName_eq_of_tagOk a sa hsa (htag a ha) (hnm a ha)
    have hdb := validName_eq_of_tagOk b sb hsb (htag b hb) (hnm b hb)
    have heqd : sa.data ++ '_' :: a.name.data = sb.data ++ '_' :: b.name.data := by
      rw [← hda, ← hdb, heq]
    have hua : ∀ x ∈ sa.data, x ≠ '_' := (serverTagOk_elim a sa hsa (htag a ha)).2.2
    have hub : ∀ x ∈ sb.data, x ≠ '_' := (serverTagOk_elim b sb hsb (htag b hb)).2.2
    obtain ⟨h1, h2⟩ := sep_inj _ _ _ _ hua hub heqd
    exact hne (by rw [hsa, hsb, str_ext sa sb h1, str_ext a.name b.name h2])

/-- C1 witness input: the spec's own scenario — display names `Files` and
`Web`, both exposing `search`. -/
def c1ok : List McpTool :=
  [ { name := "search", description := "d", inputSchemaPresent := true,
      serverName := some "Files", sourceUrl := some "http://a/sse" },
    { name := "search", description := "d", inputSchemaPresent := true,
      serverName := some "Web", sourceUrl := some "http://b/sse" } ]

/-- C1 witness: the amended theorem applied to the `Files`/`Web` pair —
the first tool's offered name matches the pattern and the two offered
names are distinct. -/
theorem c1_offered_names_valid_and_distinct_witness :
    matchesNamePattern (validNameOf
        ⟨"search", "d", true, some "Files", some "http://a/sse"⟩) = true ∧
      (offeredNames c1ok).Pairwise (· ≠ ·) :=
  ⟨(c1_offered_names_valid_and_distinct c1ok).2.1
      ⟨"search", "d", true, some "Files", some "http://a/sse"⟩ (by decide) (by decide),
   (c1_offered_names_valid_and_distinct c1ok).2.2 (by decide) (by decide) (by decide)⟩

theorem char_val_le_toNat {a : UInt32} {c : Char} (h : a ≤ c.val) :
    a.toNat ≤ c.val.toNat := by
  have hb : a.toBitVec ≤ c.val.toBitVec := h
  simpa [BitVec.le_def] using hb

theorem char_val_ge_toNat {a : UInt32} {c : Char} (h : c.val ≤ a) :
    c.val.toNat ≤ a.toNat := by
  have hb : c.val.toBitVec ≤ a.toBitVec := h
  simpa [BitVec.le_def] using hb

theorem lowerSkillChar_toLower (c : Char) (h : isLowerSkillChar c = true) :
    c.toLower = c := by
  have hneg : ¬ (Char.toNat c ≥ 65 ∧ Char.toNat c ≤ 90) := by
    simp only [isLowerSkillChar, Bool.or_eq_true, beq_iff_eq] at h
    have htn : Char.toNat c = c.val.toNat := rfl
    rcases h with (h | h) | rfl
    · simp only [Char.isLower, Bool.and_eq_true, decide_eq_true_eq] at h
      have h97 := char_val_le_toNat h.1
      have e : (97 : UInt32).toNat = 97 := rfl
      intro hc
      omega
    · simp only [Char.isDigit, Bool.and_eq_true, decide_eq_true_eq] at h
      have h57 := char_val_ge_toNat h.2
      have e : (57 : UInt32).toNat = 57 := rfl
      intro hc
      omega
    · decide
  simp only [Char.toLower]
  rw [if_neg hneg]

theorem lowerSkillChar_not_space (c : Char) (h : isLowerSkillChar c = true) :
    isJsSpace c = false := by
  cases hsp : isJsSpace c with
  | false => rfl
  | true =>
    exfalso
    simp only [isJsSpace, Bool.or_eq_true, beq_iff_eq] at hsp
    rcases hsp with ((((((rfl | rfl) | rfl) | rfl) | rfl) | rfl) | rfl) <;>
      exact absurd h (by decide)

theorem lowerSkillChar_isSkill (c : Char) (h : isLowerSkillChar c = true) :
    isSkillNameChar c = true := by
  simp only [isLowerSkillChar, Bool.or_eq_true] at h
  simp only [isSkillNameChar, Bool.or_eq_true]
  tauto

theorem stripCI_append_self (l r : List Char) : stripCI l (l ++ r) = some r := by
  induction l with
  | nil => rfl
  | cons c cs ih => simp [stripCI, ih]

theorem takeWhile_append_run (p : Char → Bool) (l1 l2 : List Char)
    (h1 : ∀ c ∈ l1, p c = true) (h2 : ∀ c, l2.head? = some c → p c = false) :
    (l1 ++ l2).takeWhile p = l1 ∧ (l1 ++ l2).dropWhile p = l2 := by
  induction l1 with
  | nil =>
    simp only [List.nil_append]
    cases l2 with
    | nil => simp
    | cons c cs =>
      have hc := h2 c rfl
      simp [List.takeWhile_cons, List.dropWhile_cons, hc]
  | cons a l ih =>
    have hpa : p a = true := h1 a (by simp)
    have ihh := ih (fun c hc => h1 c (List.mem_cons_of_mem _ hc))
    simp [List.takeWhile_cons, List.dropWhile_cons, hpa, ihh.1, ihh.2]

theorem find_build (ts : List McpTool) (t : McpTool)
    (hnodup : (offeredNames ts).Nodup) (ht : t ∈ ts) :
    (buildToolNameMap ts).reverse.find? (fun p => p.1 = validNameOf t) =
      some (validNameOf t, ⟨t.name, t.sourceUrl⟩) := by
  induction ts with
  | nil => cases ht
  | cons t0 rest ih =>
    have hrev : (buildToolNameMap (t0 :: rest)).reverse =
        (buildToolNameMap rest).reverse ++
          [(validNameOf t0, (⟨t0.name, t0.sourceUrl⟩ : RouteInfo))] := by
      simp [buildToolNameMap]
    rw [hrev, List.find?_append]
    rcases List.mem_cons.1 ht with rfl | hmem
    · have hnone : (buildToolNameMap rest).reverse.find? (fun p => p.1 = validNameOf t) = none := by
        rw [List.find?_eq_none]
        intro x hx
        rw [List.mem_reverse] at hx
        obtain ⟨t2, ht2, rfl⟩ := List.mem_map.1 hx
        have hni : validNameOf t ∉ offeredNames rest := (List.nodup_cons.1 hnodup).1
        simp only [decide_eq_true_eq]
        intro hx1
        exact hni (List.mem_map.2 ⟨t2, ht2, hx1⟩)
      rw [hnone]
      simp [List.find?]
    · have hn2 : (offeredNames rest).Nodup := (List.nodup_cons.1 hnodup).2
      rw [ih hn2 hmem]
      rfl

/-- C2 counterexample input reuses `c1pair`: the two colliding
`Files_search` tools. -/
theorem c2_counterexample :
    ¬ ∀ t ∈ c1pair, dispatchTarget (buildToolNameMap c1pair) (validNameOf t) =
      (t.name, t.sourceUrl) := by decide

/-- C2 (amended): provided the offered names of the aggregation pass are
pairwise distinct (which collisions like `c1pair` violate), looking up any
offered tool's sanitized name in the reverse routing map yields exactly
the `(originalName, sourceUrl)` pair it was built from, and the dispatch
step targets that pair.  Without that proviso the last colliding tool
wins the map entry. -/
theorem c2_routing_roundtrip (ts : List McpTool)
    (hnodup : (offeredNames ts).Nodup) (t : McpTool) (ht : t ∈ ts) :
    mapGet (buildToolNameMap ts) (validNameOf t) = some ⟨t.name, t.sourceUrl⟩ ∧
      dispatchTarget (buildToolNameMap ts) (validNameOf t) = (t.name, t.sourceUrl) := by
  have h := find_build ts t hnodup ht
  constructor
  · rw [mapGet, h]; rfl
  · rw [dispatchTarget, mapGet, h]
    rfl

/-- C2 witness: the round trip on the `Files`/`Web` pair, first tool. -/
theorem c2_routing_roundtrip_witness :
    mapGet (buildToolNameMap c1ok) "Files_search" =
      some ⟨"search", some "http://a/sse"⟩ ∧
    dispatchTarget (buildToolNameMap c1ok) "Files_search" =
      ("search", some "http://a/sse") :=
  c2_routing_roundtrip c1ok (by decide)
    ⟨"search", "d", true, some "Files", some "http://a/sse"⟩ (by decide)

theorem detectOne_explicit (cmd nm rest : String)
    (hne : nm.data ≠ [])
    (hlc : nm.data.all isLowerSkillChar = true)
    (hrest : ∀ c, rest.data.head? = some c → isSkillNameChar c = false) :
    detectOne cmd (cmd ++ " " ++ nm ++ rest) = some nm := by
  have hdata : (cmd ++ " " ++ nm ++ rest).toList =
      cmd.data ++ (' ' :: (nm.data ++ rest.data)) := by
    simp [String.toList, String.data_append]
  rw [detectOne, hdata]
  have hstrip : stripCI cmd.toList (cmd.data ++ (' ' :: (nm.data ++ rest.data))) =
      some (' ' :: (nm.data ++ rest.data)) := stripCI_append_self cmd.data _
  rw [hstrip]
  have hsp : ([' '] ++ (nm.data ++ rest.data)).takeWhile isJsSpace = [' '] ∧
      ([' '] ++ (nm.data ++ rest.data)).dropWhile isJsSpace = nm.data ++ rest.data := by
    refine takeWhile_append_run _ _ _ (by intro c hc; simp at hc; subst hc; decide) ?_
    intro c hc
    cases hmm : nm.data with
    | nil => exact absurd hmm hne
    | cons c0 rest0 =>
      rw [hmm] at hc
      simp only [List.cons_append, List.head?_cons, Option.some.injEq] at hc
      have hcc : isLowerSkillChar c0 = true :=
        List.all_eq_true.1 hlc c0 (by rw [hmm]; exact List.mem_cons_self _ _)
      have hns := lowerSkillChar_not_space c0 hcc
      exact hc ▸ hns
  have hnmrun : (nm.data ++ rest.data).takeWhile isSkillNameChar = nm.data ∧
      (nm.data ++ rest.data).dropWhile isSkillNameChar = rest.data := by
    refine takeWhile_append_run _ _ _ ?_ hrest
    intro c hc
    exact lowerSkillChar_isSkill c (List.all_eq_true.1 hlc c hc)
  simp only [List.singleton_append] at hsp
  simp only [hsp.1, hsp.2, hnmrun.1]
  have hwsne : ([' '] : List Char).isEmpty = false := rfl
  have hnmne : nm.data.isEmpty = false := by
    cases hmm : nm.data with
    | nil => exact absurd hmm hne
    | cons c0 r0 => rfl
  simp only [hwsne, hnmne, Bool.false_eq_true, if_false]
  have hmap : nm.data.map Char.toLower = nm.data := by
    conv_rhs => rw [← List.map_id nm.data]
    refine List.map_congr_left fun c hc => ?_
    exact lowerSkillChar_toLower c (List.all_eq_true.1 hlc c hc)
  rw [hmap]

/-- C9: for every user message, enabled-skill set and LLM oracle outcome,
`matchSkills` returns at most `MAX_SKILLS = 3` names; and a message of the
form `/use-skill name ...` (or `/skill name ...`) naming an enabled skill
returns exactly that one name, bypassing automatic matching. -/
theorem c9_skills_cap_and_explicit_override
    (skills : List SkillMetadata) (llm : LlmOutcome)
    (cmd nm rest : String)
    (hcmd : cmd = "/use-skill" ∨ cmd = "/skill")
    (hne : nm.data ≠ [])
    (hlc : nm.data.all isLowerSkillChar = true)
    (hrest : ∀ c, rest.data.head? = some c → isSkillNameChar c = false)
    (henabled : (skills.any fun sk => sk.name = nm) = true) :
    (∀ m ss l, (matchSkills m ss l).length ≤ MAX_SKILLS) ∧
      matchSkills (cmd ++ " " ++ nm ++ rest) skills llm = [nm] := by
  have hauto : ∀ m ss l, (autoMatch m ss l).length ≤ MAX_SKILLS := by
    intro m ss l
    cases l with
    | reply c =>
      simp only [autoMatch, List.length_take]
      exact min_le_left _ _
    | innerFail => simp [autoMatch]
    | outerFail =>
      rw [autoMatch, keywordMatch]
      simp only [List.length_map, List.length_take]
      exact min_le_left _ _
  constructor
  · intro m ss l
    rw [matchSkills.eq_def]
    split
    · simp [MAX_SKILLS]
    · split
      · split
        · simp [MAX_SKILLS]
        · exact hauto m ss l
      · exact hauto m ss l
  · have hdet : detectExplicitCommand (cmd ++ " " ++ nm ++ rest) = some nm := by
      rcases hcmd with rfl | rfl
      · rw [detectExplicitCommand, detectOne_explicit _ _ _ hne hlc hrest]
      · have hfail : detectOne "/use-skill" ("/skill" ++ " " ++ nm ++ rest) = none := by
          have hdata : ("/skill" ++ " " ++ nm ++ rest).toList =
              '/' :: 's' :: 'k' :: 'i' :: 'l' :: 'l' :: ' ' :: (nm.data ++ rest.data) := by
            simp [String.toList, String.data_append]
          rw [detectOne, hdata]
          rfl
        rw [detectExplicitCommand, hfail, detectOne_explicit _ _ _ hne hlc hrest]
    rw [matchSkills.eq_def]
    have hskne : skills.isEmpty = false := by
      cases skills with
      | nil => simp at henabled
      | cons a l => rfl
    simp only [hskne, Bool.false_eq_true, if_false, hdet, henabled, if_true]

/-- C9 witness: `/use-skill web-page-summary` with that skill enabled
returns exactly that skill, and the instantiated cap holds. -/
theorem c9_skills_cap_and_explicit_override_witness :
    matchSkills ("/use-skill" ++ " " ++ "web-page-summary" ++ "")
        [⟨"web-page-summary", "summarize pages"⟩] (.reply (some "code-explainer")) =
      ["web-page-summary"] :=
  (c9_skills_cap_and_explicit_override
    [⟨"web-page-summary", "summarize pages"⟩] (.reply (some "code-explainer"))
    "/use-skill" "web-page-summary" "" (Or.inl rfl) (by decide) (by decide)
    (by intro c hc; simp at hc) (by decide)).2

theorem consumeStream_no_stop (cs : List Chunk) : ∀ (clk : Nat) (st : StreamState),
    consumeStream (fun _ => false) cs clk st = (consume cs st, clk + cs.length) := by
  induction cs with
  | nil => intro clk st; simp [consumeStream, consume]
  | cons c cs ih =>
    intro clk st
    rw [consumeStream, if_neg (by simp), ih]
    simp [consume, List.foldl_cons]
    omega

theorem execToolsLoop_no_stop (env : ToolEnv) (m : List (String × RouteInfo))
    (tcs : List ToolCallAcc) : ∀ (clk : Nat) (hist : List Msg),
    execToolsLoop env m (fun _ => false) tcs clk hist =
      (hist ++ tcs.map (mkToolMsg env m), clk + tcs.length) := by
  induction tcs with
  | nil => intro clk hist; simp [execToolsLoop]
  | cons tc rest ih =>
    intro clk hist
    rw [execToolsLoop, if_neg (by simp), ih]
    simp
    omega

theorem runAux_counts (streams : Nat → List Chunk) (env : ToolEnv)
    (m : List (String × RouteInfo)) : ∀ (fuel t0 clk : Nat) (hist : List Msg) (calls : Nat),
    (∀ t, t0 < t → t ≤ t0 + fuel →
      (finalToolCalls (consume (streams t) initStream)).isEmpty = false) →
    (runTurnsAux streams env m (fun _ => false) fuel t0 clk hist calls).modelCalls =
        calls + fuel ∧
      (runTurnsAux streams env m (fun _ => false) fuel t0 clk hist calls).reason =
        ExitReason.maxTurnsReached := by
  intro fuel
  induction fuel with
  | zero => intro t0 clk hist calls _; simp [runTurnsAux]
  | succ f ih =>
    intro t0 clk hist calls htc
    rw [runTurnsAux, if_neg (by simp)]
    simp only [consumeStream_no_stop]
    have hne := htc (t0 + 1) (by omega) (by omega)
    rw [if_neg (by simp [hne])]
    simp only [execToolsLoop_no_stop]
    have := ih (t0 + 1) (clk + 1 + (streams (t0 + 1)).length +
        (finalToolCalls (consume (streams (t0 + 1)) initStream)).length)
      (hist ++ [mkAssistantMsg (consume (streams (t0 + 1)) initStream)] ++
        (finalToolCalls (consume (streams (t0 + 1)) initStream)).map (mkToolMsg env m))
      (calls + 1)
      (fun t h1 h2 => htc t (by omega) (by omega))
    refine ⟨?_, this.2⟩
    rw [this.1]
    omega

/-- C3: with cancellation never requested and a model that yields at
least one tool call on every turn (each resolving and executing
successfully), the turn loop makes exactly `effectiveMaxTurns` model
calls and then stops at the ceiling; an unset `maxTurns` setting means a
ceiling of 25. -/
theorem c3_turn_loop_exact_maxTurns
    (mt : Option Nat) (streams : Nat → List Chunk) (env : ToolEnv)
    (m : List (String × RouteInfo)) (hist0 : List Msg)
    (htc : ∀ t, 1 ≤ t → t ≤ effectiveMaxTurns mt →
      (finalToolCalls (consume (streams t) initStream)).isEmpty = false)
    (hres : ∀ t tc, tc ∈ finalToolCalls (consume (streams t) initStream) →
      env.jsonParse (argsStrOf tc) = Except.ok () ∧
      ∃ r, env.callTool (dispatchTarget m tc.name).1 (dispatchTarget m tc.name).2 =
        Except.ok r) :
    (runTurns (effectiveMaxTurns mt) streams env m (fun _ => false) hist0).modelCalls =
        effectiveMaxTurns mt ∧
      (runTurns (effectiveMaxTurns mt) streams env m (fun _ => false) hist0).reason =
        ExitReason.maxTurnsReached ∧
      effectiveMaxTurns none = 25 := by
  have h := runAux_counts streams env m (effectiveMaxTurns mt) 0 0 hist0 0
    (fun t h1 h2 => htc t (by omega) (by omega))
  exact ⟨by simpa [runTurns] using h.1, by simpa [runTurns] using h.2, rfl⟩

/-- C3 witness input: a model that always calls `calc_add` and a server
that always answers `4`. -/
def envW : ToolEnv :=
  { jsonParse := fun _ => Except.ok ()
    callTool := fun _ _ => Except.ok ⟨[⟨"text", "4"⟩], false⟩ }

/-- C3 witness: two configured turns, tool call on every turn, exactly two
model calls, ceiling stop. -/
theorem c3_turn_loop_exact_maxTurns_witness :
    (runTurns (effectiveMaxTurns (some 2))
        (fun _ => [Chunk.toolStart "c1" "calc_add",
                   Chunk.toolDelta "\x7b\x22a\x22:2,\x22b\x22:2\x7d"])
        envW [] (fun _ => false) []).modelCalls = effectiveMaxTurns (some 2) ∧
      (runTurns (effectiveMaxTurns (some 2))
        (fun _ => [Chunk.toolStart "c1" "calc_add",
                   Chunk.toolDelta "\x7b\x22a\x22:2,\x22b\x22:2\x7d"])
        envW [] (fun _ => false) []).reason = ExitReason.maxTurnsReached ∧
      effectiveMaxTurns none = 25 :=
  c3_turn_loop_exact_maxTurns (some 2) _ envW [] []
    (fun _ _ _ => rfl)
    (fun _ _ _ => ⟨rfl, ⟨⟨[⟨"text", "4"⟩], false⟩, rfl⟩⟩)

theorem consumeStream_first_fire (stop : Nat → Bool) (cs : List Chunk) :
    ∀ (clk : Nat) (st : StreamState) (i0 : Nat), i0 < cs.length →
    stop (clk + i0) = true → (∀ j, j < i0 → stop (clk + j) = false) →
    consumeStream stop cs clk st = (consume (cs.take i0) st, clk + i0 + 1) := by
  induction cs with
  | nil => intro clk st i0 hi; exact absurd hi (by simp)
  | cons c cs ih =>
    intro clk st i0 hi hfire hfirst
    cases i0 with
    | zero =>
      rw [consumeStream, if_pos (by simpa using hfire)]
      simp [consume]
    | succ j =>
      rw [consumeStream, if_neg (by simpa using hfirst 0 (by omega))]
      have harith : clk + 1 + j = clk + (j + 1) := by omega
      have := ih (clk + 1) (stepChunk st c) j (by simpa using Nat.lt_of_succ_lt_succ hi)
        (by rw [harith]; exact hfire)
        (fun j2 hj2 => by
          have h2 : clk + 1 + j2 = clk + (j2 + 1) := by omega
          rw [h2]; exact hfirst (j2 + 1) (by omega))
      rw [this]
      have he : consume (List.take j cs) (stepChunk st c) =
          consume (List.take (j + 1) (c :: cs)) st := rfl
      rw [he]
      have hn : clk + 1 + j + 1 = clk + (j + 1) + 1 := by omega
      rw [hn]

theorem execToolsLoop_stop_now (env : ToolEnv) (m : List (String × RouteInfo))
    (stop : Nat → Bool) (tcs : List ToolCallAcc) (clk : Nat) (hist : List Msg)
    (hstop : stop clk = true) (hne : tcs.isEmpty = false) :
    execToolsLoop env m stop tcs clk hist = (hist, clk + 1) := by
  cases tcs with
  | nil => simp at hne
  | cons tc rest => rw [execToolsLoop, if_pos hstop]

/-- C4: if cancellation fires while the model stream of a turn is being
consumed (first observed stop check at chunk index `i0`, strictly inside
the stream), the loop commits exactly one assistant message holding the
text accumulated up to that point, performs no further model calls, and
executes no tool: no tool message is appended and no tool call runs. -/
theorem c4_cancel_mid_stream_keeps_partial_and_stops
    (streams : Nat → List Chunk) (env : ToolEnv) (m : List (String × RouteInfo))
    (stop : Nat → Bool) (fuel t0 clk : Nat) (hist : List Msg) (calls : Nat) (i0 : Nat)
    (hmono : ∀ i j, i ≤ j → stop i = true → stop j = true)
    (htop : stop clk = false)
    (hi : i0 < (streams (t0 + 1)).length)
    (hfire : stop (clk + 1 + i0) = true)
    (hfirst : ∀ j, j < i0 → stop (clk + 1 + j) = false) :
    (runTurnsAux streams env m stop (fuel + 1) t0 clk hist calls).history =
        hist ++ [mkAssistantMsg (consume ((streams (t0 + 1)).take i0) initStream)] ∧
      (runTurnsAux streams env m stop (fuel + 1) t0 clk hist calls).modelCalls =
        calls + 1 ∧
      (mkAssistantMsg (consume ((streams (t0 + 1)).take i0) initStream)).role =
        Role.assistant ∧
      (mkAssistantMsg (consume ((streams (t0 + 1)).take i0) initStream)).content =
        (consume ((streams (t0 + 1)).take i0) initStream).fullContent := by
  have hcs := consumeStream_first_fire stop (streams (t0 + 1)) (clk + 1) initStream i0 hi
    hfire hfirst
  rw [runTurnsAux]
  rw [if_neg (by simp [htop])]
  simp only [hcs]
  set st := consume ((streams (t0 + 1)).take i0) initStream with hst
  by_cases hemp : (finalToolCalls st).isEmpty
  · rw [if_pos hemp]
    exact ⟨rfl, rfl, rfl, rfl⟩
  · rw [if_neg hemp]
    have hstop2 : stop (clk + 1 + i0 + 1) = true := hmono _ _ (by omega) hfire
    rw [execToolsLoop_stop_now env m stop _ _ _ hstop2
      (Bool.eq_false_iff.2 hemp)]
    cases fuel with
    | zero => exact ⟨rfl, rfl, rfl, rfl⟩
    | succ f =>
      rw [runTurnsAux, if_pos (hmono _ _ (by omega) hfire)]
      exact ⟨rfl, rfl, rfl, rfl⟩

/-- C4 witness: a stream of three chunks cancelled before its second
chunk keeps the partial text `Hel` in exactly one assistant message. -/
theorem c4_cancel_mid_stream_keeps_partial_and_stops_witness :
    (runTurnsAux
        (fun _ => [Chunk.content "Hel", Chunk.content "lo!", Chunk.toolStart "c1" "t"])
        envW [] (fun n => decide (2 ≤ n)) 3 0 0 [] 0).history =
      [] ++ [mkAssistantMsg (consume ([Chunk.content "Hel",
          Chunk.content "lo!", Chunk.toolStart "c1" "t"].take 1) initStream)] ∧
    (runTurnsAux
        (fun _ => [Chunk.content "Hel", Chunk.content "lo!", Chunk.toolStart "c1" "t"])
        envW [] (fun n => decide (2 ≤ n)) 3 0 0 [] 0).modelCalls = 0 + 1 ∧
    (mkAssistantMsg (consume ([Chunk.content "Hel",
        Chunk.content "lo!", Chunk.toolStart "c1" "t"].take 1) initStream)).role =
      Role.assistant ∧
    (mkAssistantMsg (consume ([Chunk.content "Hel",
        Chunk.content "lo!", Chunk.toolStart "c1" "t"].take 1) initStream)).content =
      (consume ([Chunk.content "Hel",
        Chunk.content "lo!", Chunk.toolStart "c1" "t"].take 1) initStream).fullContent :=
  c4_cancel_mid_stream_keeps_partial_and_stops
    (fun _ => [Chunk.content "Hel", Chunk.content "lo!", Chunk.toolStart "c1" "t"])
    envW [] (fun n => decide (2 ≤ n)) 2 0 0 [] 0 1
    (fun i j hij hi => by simp at hi ⊢; omega)
    (by decide) (by decide) (by decide)
    (fun j hj => by
      have : j = 0 := by omega
      subst this
      decide)

theorem str_nil_append (s : String) : "" ++ s = s := by
  cases s
  rfl

theorem runAux_step (streams : Nat → List Chunk) (env : ToolEnv)
    (m : List (String × RouteInfo)) (fuel t0 clk : Nat) (hist : List Msg) (calls : Nat) :
    runTurnsAux streams env m (fun _ => false) (fuel + 1) t0 clk hist calls =
      (if (finalToolCalls (consume (streams (t0 + 1)) initStream)).isEmpty then
        ⟨hist ++ [mkAssistantMsg (consume (streams (t0 + 1)) initStream)], calls + 1,
          ExitReason.noToolCalls⟩
      else
        runTurnsAux streams env m (fun _ => false) fuel (t0 + 1)
          (clk + 1 + (streams (t0 + 1)).length +
            (finalToolCalls (consume (streams (t0 + 1)) initStream)).length)
          (hist ++ [mkAssistantMsg (consume (streams (t0 + 1)) initStream)] ++
            (finalToolCalls (consume (streams (t0 + 1)) initStream)).map (mkToolMsg env m))
          (calls + 1)) := by
  rw [runTurnsAux, if_neg (by simp)]
  simp only [consumeStream_no_stop, execToolsLoop_no_stop]

/-- C5: a tool call whose accumulated argument string is not valid JSON
gets a tool message whose content is exactly `Error executing tool: `
followed by the parse error; the loop is not aborted by it — the next
model call proceeds and the run ends normally on the following no-tool
turn. -/
theorem c5_malformed_args_contained
    (env : ToolEnv) (m : List (String × RouteInfo))
    (s e id nm txt : String) (streams : Nat → List Chunk) (maxTurns : Nat)
    (hist0 : List Msg)
    (hparse : env.jsonParse s = Except.error e)
    (hs : s ≠ "")
    (h1 : streams 1 = [Chunk.toolStart id nm, Chunk.toolDelta s])
    (h2 : streams 2 = [Chunk.content txt])
    (hmax : maxTurns = 2) :
    (mkToolMsg env m ⟨id, nm, s⟩).content = "Error executing tool: " ++ e ∧
      runTurns maxTurns streams env m (fun _ => false) hist0 =
        ⟨hist0 ++ [mkAssistantMsg ⟨"", "", [], some ⟨id, nm, s⟩⟩,
                   mkToolMsg env m ⟨id, nm, s⟩,
                   mkAssistantMsg ⟨txt, "", [], none⟩],
         2, ExitReason.noToolCalls⟩ := by
  have hA1 : consume (streams 1) initStream =
      ⟨"", "", [], some ⟨id, nm, s⟩⟩ := by
    rw [h1]
    simp [consume, stepChunk, initStream, str_nil_append]
  have hA2 : consume (streams 2) initStream = ⟨txt, "", [], none⟩ := by
    rw [h2]
    simp [consume, stepChunk, initStream, str_nil_append]
  have htool : execToolResult env m ⟨id, nm, s⟩ = "Error executing tool: " ++ e := by
    simp [execToolResult, argsStrOf, hs, hparse]
  subst hmax
  refine ⟨by simp [mkToolMsg, htool], ?_⟩
  rw [runTurns]
  rw [show (2 : Nat) = 1 + 1 from rfl, runAux_step]
  simp only [Nat.zero_add, hA1]
  rw [if_neg (by simp [finalToolCalls])]
  rw [runAux_step]
  simp only [Nat.reduceAdd, hA2]
  rw [if_pos (by simp [finalToolCalls])]
  simp [finalToolCalls]

/-- C5 witness: the spec's own scenario, argument string `{a:2`. -/
theorem c5_malformed_args_contained_witness :
    (mkToolMsg
        ⟨fun a => if a = "\x7ba:2" then Except.error "Unexpected token" else Except.ok (),
         fun _ _ => Except.ok ⟨[⟨"text", "4"⟩], false⟩⟩ []
        ⟨"c1", "calc_add", "\x7ba:2"⟩).content =
      "Error executing tool: " ++ "Unexpected token" ∧
    runTurns 2
        (fun t => if t = 1 then [Chunk.toolStart "c1" "calc_add", Chunk.toolDelta "\x7ba:2"]
          else [Chunk.content "done"])
        ⟨fun a => if a = "\x7ba:2" then Except.error "Unexpected token" else Except.ok (),
         fun _ _ => Except.ok ⟨[⟨"text", "4"⟩], false⟩⟩ [] (fun _ => false) [] =
      ⟨[] ++ [mkAssistantMsg ⟨"", "", [], some ⟨"c1", "calc_add", "\x7ba:2"⟩⟩,
              mkToolMsg
                ⟨fun a => if a = "\x7ba:2" then Except.error "Unexpected token" else Except.ok (),
                 fun _ _ => Except.ok ⟨[⟨"text", "4"⟩], false⟩⟩ []
                ⟨"c1", "calc_add", "\x7ba:2"⟩,
              mkAssistantMsg ⟨"done", "", [], none⟩],
       2, ExitReason.noToolCalls⟩ :=
  c5_malformed_args_contained
    ⟨fun a => if a = "\x7ba:2" then Except.error "Unexpected token" else Except.ok (),
     fun _ _ => Except.ok ⟨[⟨"text", "4"⟩], false⟩⟩ []
    "\x7ba:2" "Unexpected token" "c1" "calc_add" "done"
    (fun t => if t = 1 then [Chunk.toolStart "c1" "calc_add", Chunk.toolDelta "\x7ba:2"]
      else [Chunk.content "done"])
    2 []
    (by simp) (by decide) (by simp) (by simp) rfl

theorem execToolsLoop_mem (env : ToolEnv) (m : List (String × RouteInfo))
    (stop : Nat → Bool) : ∀ (tcs : List ToolCallAcc) (clk : Nat) (h : List Msg)
    (msg : Msg), msg ∈ (execToolsLoop env m stop tcs clk h).1 →
    msg ∈ h ∨ msg.role = Role.tool := by
  intro tcs
  induction tcs with
  | nil => intro clk h msg hm; exact Or.inl hm
  | cons tc rest ih =>
    intro clk h msg hm
    rw [execToolsLoop] at hm
    by_cases hs : stop clk
    · rw [if_pos hs] at hm; exact Or.inl hm
    · rw [if_neg hs] at hm
      rcases ih (clk + 1) (h ++ [mkToolMsg env m tc]) msg hm with hin | hrole
      · rcases List.mem_append.1 hin with hin2 | hin2
        · exact Or.inl hin2
        · right
          rw [List.mem_singleton.1 hin2]
          rfl
      · exact Or.inr hrole

/-- C8 counterexample input: one-turn ceiling, a model that always calls
a tool, a server that answers; the loop hits the ceiling. -/
def c8run : LoopResult :=
  runTurns 1 (fun _ => [Chunk.toolStart "c1" "t"]) envW [] (fun _ => false) []

/-- C8, counterexample: a run that stops because the counter reached the
ceiling contains no message mentioning `max turns` at all — the stop is
not reported to the user as "max turns reached". -/
theorem c8_counterexample :
    c8run.reason = ExitReason.maxTurnsReached ∧
      ∀ msg ∈ c8run.history, containsStr msg.content "max turns" = false := by decide

/-- C8 (amended): when the turn counter reaches the configured ceiling
the loop simply exits: nothing is appended to the history, no further
model call is made, and the exit is not an error path; moreover the loop
itself never appends any notice message — every message it adds is an
assistant or tool message, so no "max turns reached" notice (and no error
message) is produced for the ceiling stop. -/
theorem c8_ceiling_stop_is_silent (streams : Nat → List Chunk) (env : ToolEnv)
    (m : List (String × RouteInfo)) (stop : Nat → Bool) (t0 clk : Nat)
    (hist : List Msg) (calls : Nat) :
    runTurnsAux streams env m stop 0 t0 clk hist calls =
        ⟨hist, calls, ExitReason.maxTurnsReached⟩ ∧
      ∀ (fuel t1 clk1 : Nat) (hist1 : List Msg) (calls1 : Nat) (msg : Msg),
        msg ∈ (runTurnsAux streams env m stop fuel t1 clk1 hist1 calls1).history →
        msg ∈ hist1 ∨ msg.role = Role.assistant ∨ msg.role = Role.tool := by
  refine ⟨rfl, ?_⟩
  intro fuel
  induction fuel with
  | zero => intro t1 clk1 hist1 calls1 msg hm; exact Or.inl hm
  | succ f ih =>
    intro t1 clk1 hist1 calls1 msg hm
    rw [runTurnsAux] at hm
    by_cases hs : stop clk1
    · rw [if_pos hs] at hm; exact Or.inl hm
    · rw [if_neg hs] at hm
      rcases hsr : consumeStream stop (streams (t1 + 1)) (clk1 + 1) initStream with ⟨st, clkx⟩
      simp only [hsr] at hm
      by_cases hemp : (finalToolCalls st).isEmpty
      · rw [if_pos hemp] at hm
        simp only at hm
        rcases List.mem_append.1 hm with hin | hin
        · exact Or.inl hin
        · right; left
          rw [List.mem_singleton.1 hin]
          rfl
      · rw [if_neg hemp] at hm
        rcases ih (t1 + 1) _ _ (calls1 + 1) msg hm with hin | hrole
        · rcases execToolsLoop_mem env m stop _ _ _ msg hin with hin2 | hrole2
          · rcases List.mem_append.1 hin2 with hin3 | hin3
            · exact Or.inl hin3
            · right; left
              rw [List.mem_singleton.1 hin3]
              rfl
          · exact Or.inr (Or.inr hrole2)
        · exact Or.inr hrole

/-- C8 witness: concrete ceiling exit appends nothing, and the membership
clause instantiated at a concrete run. -/
theorem c8_ceiling_stop_is_silent_witness :
    runTurnsAux (fun _ => [Chunk.toolStart "c1" "t"]) envW [] (fun _ => false)
        0 0 0 [] 0 = ⟨[], 0, ExitReason.maxTurnsReached⟩ :=
  (c8_ceiling_stop_is_silent (fun _ => [Chunk.toolStart "c1" "t"]) envW []
    (fun _ => false) 0 0 [] 0).1

/-- C6: per-URL connect deduplication — calling `connect` on a URL whose
entry is `connected` is a no-op (state unchanged, nothing returned), and
calling it while an attempt is in flight returns the stored in-flight
promise, again without touching the state; hence at most one connect
attempt per URL is ever in flight. -/
theorem c6_connect_single_flight (sst : SvcState) (url : String) (fresh pid : Nat)
    (e : ClientEntry) (hget : svcGet sst url = some e) :
    (e.status = ConnStatus.connected →
      connectCall sst url fresh = (sst, ConnectCallResult.noop)) ∧
    (e.status = ConnStatus.connecting → e.connectPromise = some pid →
      connectCall sst url fresh = (sst, ConnectCallResult.existingPromise pid)) := by
  constructor
  · intro h
    simp only [connectCall, hget, h, if_pos]
  · intro h1 h2
    have hne : ¬ e.status = ConnStatus.connected := by rw [h1]; intro hx; cases hx
    simp only [connectCall, hget, if_neg hne, if_pos h1, h2]

/-- C6 witness: a connected entry is untouched; a connecting entry with a
stored promise returns that promise. -/
theorem c6_connect_single_flight_witness :
    connectCall [("u", ⟨ConnStatus.connected, none, none, none⟩)] "u" 5 =
      ([("u", ⟨ConnStatus.connected, none, none, none⟩)], ConnectCallResult.noop) ∧
    connectCall [("u", ⟨ConnStatus.connecting, some 7, none, none⟩)] "u" 5 =
      ([("u", ⟨ConnStatus.connecting, some 7, none, none⟩)],
        ConnectCallResult.existingPromise 7) :=
  ⟨(c6_connect_single_flight [("u", ⟨ConnStatus.connected, none, none, none⟩)]
      "u" 5 0 ⟨ConnStatus.connected, none, none, none⟩ rfl).1 rfl,
   (c6_connect_single_flight [("u", ⟨ConnStatus.connecting, some 7, none, none⟩)]
      "u" 5 7 ⟨ConnStatus.connecting, some 7, none, none⟩ rfl).2 rfl rfl⟩

theorem find_map_set (url : String) (e : ClientEntry) :
    ∀ (sst : SvcState), (List.find? (fun p => p.1 = url) sst).isSome = true →
    List.find? (fun p => p.1 = url)
      (sst.map fun p => if p.1 = url then (url, e) else p) = some (url, e) := by
  intro sst
  induction sst with
  | nil => intro h; simp at h
  | cons p0 tail ih =>
    intro h
    by_cases h0 : p0.1 = url
    · simp [List.find?, h0]
    · rw [List.find?_cons] at h
      simp only [List.map_cons, if_neg h0]
      rw [List.find?_cons]
      split
      · rename_i hx
        exact absurd (of_decide_eq_true hx) h0
      · split at h
        · rename_i hx
          exact absurd (of_decide_eq_true hx) h0
        · exact ih h

theorem svcGet_set_self (sst : SvcState) (url : String) (e : ClientEntry) :
    svcGet (svcSet sst url e) url = some e := by
  rw [svcSet]
  by_cases h : (List.find? (fun p => p.1 = url) sst).isSome = true
  · rw [if_pos h, svcGet, find_map_set url e sst h]
    rfl
  · rw [if_neg h, svcGet, List.find?_append]
    have hnone : List.find? (fun p => p.1 = url) sst = none :=
      Option.not_isSome_iff_eq_none.1 (by simpa using h)
    rw [hnone]
    simp [List.find?]

theorem connectCall_new_state (sst : SvcState) (url : String) (fresh : Nat)
    (hnew : (connectCall sst url fresh).2 = ConnectCallResult.newPromise fresh) :
    svcGet (connectCall sst url fresh).1 url =
      some ⟨ConnStatus.connecting, some fresh, none, none⟩ := by
  cases hget : svcGet sst url with
  | none =>
    simp only [connectCall, hget]
    exact svcGet_set_self _ _ _
  | some e =>
    by_cases h1 : e.status = ConnStatus.connected
    · simp only [connectCall, hget, if_pos h1] at hnew
      exact absurd hnew (by simp)
    · by_cases h2 : e.status = ConnStatus.connecting
      · cases hp : e.connectPromise with
        | some pid =>
          simp only [connectCall, hget, if_neg h1, if_pos h2, hp] at hnew
          exact absurd hnew (by simp)
        | none =>
          simp only [connectCall, hget, if_neg h1, if_pos h2, hp]
          exact svcGet_set_self _ _ _
      · simp only [connectCall, hget, if_neg h1, if_neg h2]
        exact svcGet_set_self _ _ _

/-- C10: `connect` never rejects.  When a fresh attempt starts and the
probe or handshake fails with message `e`, the translated call still
returns `.ok`: the failure is recorded by moving the entry to `error`
with the message stored, retrievable via `getConnectionError`; and for
every probe/handshake outcome whatsoever the call returns `.ok`. -/
theorem c10_connect_never_rejects (sst : SvcState) (url : String) (fresh : Nat)
    (f : FetchOutcome) (handshake : Bool → Except String Unit) (e : String)
    (hbody : connectBody f handshake = Except.error e)
    (hnew : (connectCall sst url fresh).2 = ConnectCallResult.newPromise fresh) :
    ∃ s2, mcpConnect sst url fresh f handshake =
        Except.ok (s2, ConnectCallResult.newPromise fresh) ∧
      getConnectionStatus s2 url = ConnStatus.error ∧
      getConnectionError s2 url = some e ∧
      ∀ (f2 : FetchOutcome) (h2 : Bool → Except String Unit),
        ∃ out, mcpConnect sst url fresh f2 h2 = Except.ok out := by
  have hstate := connectCall_new_state sst url fresh hnew
  refine ⟨resolveBody (connectCall sst url fresh).1 url (connectBody f handshake),
    ?_, ?_, ?_, ?_⟩
  · simp only [mcpConnect, hnew]
  · rw [resolveBody, hstate, hbody, getConnectionStatus, svcGet_set_self]
  · rw [resolveBody, hstate, hbody, getConnectionError, svcGet_set_self]
  · intro f2 h2
    simp only [mcpConnect, hnew]
    exact ⟨_, rfl⟩

/-- C10 witness: a network-level probe failure on a fresh URL resolves
(`.ok`), records `error`, and exposes the message. -/
theorem c10_connect_never_rejects_witness :
    ∃ s2, mcpConnect [] "http://x/sse" 0 (FetchOutcome.netError "Failed to fetch")
        (fun _ => Except.ok ()) =
        Except.ok (s2, ConnectCallResult.newPromise 0) ∧
      getConnectionStatus s2 "http://x/sse" = ConnStatus.error ∧
      getConnectionError s2 "http://x/sse" = some "Failed to fetch" ∧
      ∀ (f2 : FetchOutcome) (h2 : Bool → Except String Unit),
        ∃ out, mcpConnect [] "http://x/sse" 0 f2 h2 = Except.ok out :=
  c10_connect_never_rejects [] "http://x/sse" 0 (FetchOutcome.netError "Failed to fetch")
    (fun _ => Except.ok ()) "Failed to fetch" rfl rfl

/-- C7: `send` decodes by sniffing in order — empty bodies (explicit
`content-length: 0`, 204, or a blank body) succeed delivering nothing; a
JSON body delivers exactly one message; otherwise `data:` framing (or an
event-stream content-type) delivers the parsed data lines; anything else
rejects with the diagnostic carrying the content-type and a truncated
preview; and every rejection hands the same error to the error callback. -/
theorem c7_send_sniffing_order (jp : String → Bool) (r : HttpResp) :
    (r.ok = true → (r.contentLength = some "0" ∨ r.status = 204 ∨ isBlank r.body = true) →
      sendDecode jp r = ⟨[], none, Except.ok ()⟩) ∧
    (r.ok = true → r.contentLength ≠ some "0" → r.status ≠ 204 → isBlank r.body = false →
      jp r.body = true → sendDecode jp r = ⟨[r.body], none, Except.ok ()⟩) ∧
    (r.ok = true → r.contentLength ≠ some "0" → r.status ≠ 204 → isBlank r.body = false →
      jp r.body = false →
      (containsStr r.body "data:" || ctIncludes r.contentType "text/event-stream") = true →
      (sseDeliver jp r.body).isEmpty = false →
      sendDecode jp r = ⟨sseDeliver jp r.body, none, Except.ok ()⟩) ∧
    (r.ok = true → r.contentLength ≠ some "0" → r.status ≠ 204 → isBlank r.body = false →
      jp r.body = false →
      (containsStr r.body "data:" || ctIncludes r.contentType "text/event-stream") = false →
      sendDecode jp r = ⟨[], some (unsupportedMsg r), Except.error (unsupportedMsg r)⟩) ∧
    (∀ msg, (sendDecode jp r).result = Except.error msg →
      (sendDecode jp r).errorCb = some msg) := by
  refine ⟨?_, ?_, ?_, ?_, ?_⟩
  · intro hok hcase
    rcases hcase with h | h | h <;> simp [sendDecode, hok, h]
  · intro hok hcl h204 hblank hjp
    simp [sendDecode, hok, hcl, h204, hblank, hjp]
  · intro hok hcl h204 hblank hjp hfr hne
    simp [sendDecode, hok, hcl, h204, hblank, hjp, hfr, hne]
  · intro hok hcl h204 hblank hjp hfr
    simp only [Bool.or_eq_false_iff] at hfr
    simp [sendDecode, hok, hcl, h204, hblank, hjp, hfr.1, hfr.2]
  · intro msg hmsg
    simp only [sendDecode] at hmsg ⊢
    split_ifs at hmsg ⊢ <;> simp_all

/-- C7 witness: a JSON body delivers one message; a garbage body rejects
with the diagnostic and the callback sees the same error. -/
theorem c7_send_sniffing_order_witness :
    sendDecode (fun a => a == "\x7b\x22ok\x22:1\x7d")
        ⟨true, 200, none, some "application/json", "\x7b\x22ok\x22:1\x7d"⟩ =
      ⟨["\x7b\x22ok\x22:1\x7d"], none, Except.ok ()⟩ ∧
    sendDecode (fun a => a == "\x7b\x22ok\x22:1\x7d")
        ⟨true, 200, none, some "text/html", "<!DOCTYPE html>"⟩ =
      ⟨[], some (unsupportedMsg ⟨true, 200, none, some "text/html", "<!DOCTYPE html>"⟩),
        Except.error (unsupportedMsg ⟨true, 200, none, some "text/html", "<!DOCTYPE html>"⟩)⟩ :=
  ⟨(c7_send_sniffing_order (fun a => a == "\x7b\x22ok\x22:1\x7d")
      ⟨true, 200, none, some "application/json", "\x7b\x22ok\x22:1\x7d"⟩).2.1
      rfl (by decide) (by decide) (by decide) (by decide),
   (c7_send_sniffing_order (fun a => a == "\x7b\x22ok\x22:1\x7d")
      ⟨true, 200, none, some "text/html", "<!DOCTYPE html>"⟩).2.2.2.1
      rfl (by decide) (by decide) (by decide) (by decide) (by decide)⟩

end Sidebar
